import Mathlib

/-!
Verification development for the GGUF ("Format-A") and GGLA ("Format-B")
binary model-container decoders of the `llm` package (files `gguf.go` and
`ggla.go`).

The decoders are embedded shallowly:

* a `readSeekOffset` stream is a byte list together with a current position
  (`rso`); reads advance the position, seeks move it;
* Go's `binary.Read` into a fixed-width scalar whose error result is
  discarded (every `readU8`/`readU16`/`readU32`/`readU64`/... helper in
  `gguf.go`, and the version reads) is embedded as a total function that
  yields the zero value when the stream is short, mirroring the fact that
  the destination variable keeps its zero value when `binary.Read` fails;
* Go's error-checked reads (`binary.Read` in `ggla.go`, `io.CopyN` in the
  string readers) are embedded with `Except`/sum results, the error checks
  appearing as explicit matches exactly where the source checks `err`;
* machine integers are `Nat`/`Int` with explicit reductions modulo `2 ^ w`
  where overflow can occur;
* `float32`/`float64` payloads are kept as raw little-endian bit patterns
  (no claim depends on float semantics);
* Go strings are byte lists (`List Nat`); Go maps keyed by strings are
  association lists with overwrite-on-insert semantics.
-/

/-- Stream model: the `readSeekOffset` wrapper of the source, a byte list
together with the current absolute offset. -/
structure rso where
  data : List Nat
  pos : Nat
deriving DecidableEq, Repr

/-- Little-endian value of a byte list (least significant byte first). -/
def leVal : List Nat → Nat
  | [] => 0
  | b :: bs => b + 256 * leVal bs

/-- Bytes produced by an attempted read of `n` bytes at the current position. -/
def rso.peek (s : rso) (n : Nat) : List Nat :=
  (s.data.drop s.pos).take n

/-- Read with the error discarded, as Go's `binary.Read` is used throughout
`gguf.go`: on success the bytes are returned and the position advances by
`n`; on a short read the destination keeps its zero value (returned here as
the empty byte list) and the reader consumes whatever was left. -/
def readLax (n : Nat) (s : rso) : List Nat × rso :=
  if s.pos + n ≤ s.data.length then
    (s.peek n, ⟨s.data, s.pos + n⟩)
  else
    ([], ⟨s.data, max s.pos s.data.length⟩)

/-- Source `readU8`: one byte, error ignored. -/
def readU8 (s : rso) : Nat × rso :=
  let (bs, s') := readLax 1 s
  (leVal bs % 2 ^ 8, s')

/-- Source `readU16`: two bytes little-endian, error ignored. -/
def readU16 (s : rso) : Nat × rso :=
  let (bs, s') := readLax 2 s
  (leVal bs % 2 ^ 16, s')

/-- Source `readU32`: four bytes little-endian, error ignored. -/
def readU32 (s : rso) : Nat × rso :=
  let (bs, s') := readLax 4 s
  (leVal bs % 2 ^ 32, s')

/-- Source `readU64`: eight bytes little-endian, error ignored. -/
def readU64 (s : rso) : Nat × rso :=
  let (bs, s') := readLax 8 s
  (leVal bs % 2 ^ 64, s')

/-- Two's-complement reinterpretation of a `w`-bit unsigned value. -/
def toSigned (w n : Nat) : Int :=
  if n < 2 ^ (w - 1) then (n : Int) else (n : Int) - 2 ^ w

/-- Source `readI8`. -/
def readI8 (s : rso) : Int × rso :=
  let (v, s') := readU8 s
  (toSigned 8 v, s')

/-- Source `readI16`. -/
def readI16 (s : rso) : Int × rso :=
  let (v, s') := readU16 s
  (toSigned 16 v, s')

/-- Source `readI32`. -/
def readI32 (s : rso) : Int × rso :=
  let (v, s') := readU32 s
  (toSigned 32 v, s')

/-- Source `readI64`. -/
def readI64 (s : rso) : Int × rso :=
  let (v, s') := readU64 s
  (toSigned 64 v, s')

/-- Source `readF32`: the four payload bytes are kept as a raw bit pattern. -/
def readF32 (s : rso) : Nat × rso := readU32 s

/-- Source `readF64`: the eight payload bytes are kept as a raw bit pattern. -/
def readF64 (s : rso) : Nat × rso := readU64 s

/-- Source `readBool`: `binary.Read` into a `bool` decodes one byte as
`byte != 0`. -/
def readBool (s : rso) : Bool × rso :=
  let (v, s') := readU8 s
  (v != 0, s')

/-- Scalar or string metadata value, one variant per wire kind of the GGUF
typed-value sub-protocol; floats keep their raw bit patterns. -/
inductive gScalar where
  | u8 (v : Nat)
  | i8 (v : Int)
  | u16 (v : Nat)
  | i16 (v : Int)
  | u32 (v : Nat)
  | i32 (v : Int)
  | u64 (v : Nat)
  | i64 (v : Int)
  | f32 (bits : Nat)
  | f64 (bits : Nat)
  | bool (v : Bool)
  | str (bytes : List Nat)
deriving DecidableEq, Repr

/-- Dynamically typed metadata value: a scalar/string, or one level of
homogeneous array of scalars/strings (the decoder never produces nested
arrays). -/
inductive gValue where
  | scalar (v : gScalar)
  | arr (vs : List gScalar)
deriving DecidableEq, Repr

/-- Metadata store: Go's `map[string]any` as an association list from byte
string keys to values, with overwrite-on-insert. -/
abbrev KV := List (List Nat × gValue)

/-- Map assignment `m[k] = v`: replace the binding of `k` if present,
otherwise append. -/
def kvInsert (st : KV) (k : List Nat) (v : gValue) : KV :=
  match st with
  | [] => [(k, v)]
  | (k', v') :: rest =>
    if k' = k then (k, v) :: rest else (k', v') :: kvInsert rest k v

/-- Map lookup `m[k]`. -/
def kvGet (st : KV) (k : List Nat) : Option gValue :=
  match st with
  | [] => none
  | (k', v') :: rest => if k' = k then some v' else kvGet rest k

/-- Byte string of the literal key spelling tokenizer.chat_template. -/
def chatTemplateKey : List Nat :=
  [116, 111, 107, 101, 110, 105, 122, 101, 114, 46,
   99, 104, 97, 116, 95, 116, 101, 109, 112, 108, 97, 116, 101]

/-- Byte string of the literal key spelling general.alignment. -/
def alignmentKey : List Nat :=
  [103, 101, 110, 101, 114, 97, 108, 46,
   97, 108, 105, 103, 110, 109, 101, 110, 116]

/-- Byte string of the literal key spelling general.parameter_count. -/
def paramCountKey : List Nat :=
  [103, 101, 110, 101, 114, 97, 108, 46,
   112, 97, 114, 97, 109, 101, 116, 101, 114, 95, 99, 111, 117, 110, 116]

/-- Errors of the GGUF decoder: the propagated `io.CopyN` failure of the
string readers, the two unknown-tag errors (each carrying the offending
numeric tag, as the `fmt.Errorf` calls do), and the two run-time panics the
decoder can hit (`bytes.Buffer.Truncate` with a negative length in
`readStringV1`, and `%` by a zero alignment). -/
inductive ggufErr where
  | copyEof
  | invalidType (tag : Nat)
  | invalidArrayType (tag : Nat)
  | truncPanic
  | divByZeroPanic
deriving DecidableEq, Repr

instance {ε α : Type} [DecidableEq ε] [DecidableEq α] : DecidableEq (Except ε α) := fun x y =>
  match x, y with
  | .ok a, .ok b =>
    if h : a = b then .isTrue (by rw [h]) else .isFalse (by simp [h])
  | .error a, .error b =>
    if h : a = b then .isTrue (by rw [h]) else .isFalse (by simp [h])
  | .ok _, .error _ => .isFalse (by simp)
  | .error _, .ok _ => .isFalse (by simp)

/-- Source `readStringV1` (container version 1): 32-bit length, `io.CopyN`
of that many bytes (its error propagated), then `b.Truncate(b.Len() - 1)`
strips the trailing null terminator byte. With a zero length prefix the
truncation length is `-1`, which makes `bytes.Buffer.Truncate` panic. -/
def readStringV1 (s : rso) : Except ggufErr (List Nat × rso) :=
  let (n, s1) := readU32 s
  if n = 0 then .error .truncPanic
  else if s1.pos + n ≤ s1.data.length then
    .ok ((s1.peek n).dropLast, ⟨s1.data, s1.pos + n⟩)
  else .error .copyEof

/-- Source `readString`: version 1 dispatches to `readStringV1`; later
versions read a 64-bit length and copy exactly that many bytes with no
stripping. The length is cast to `int64` for `io.CopyN`; a length at or
above `2 ^ 63` becomes negative, for which `io.CopyN` copies nothing and
reports no error. -/
def readString (version : Nat) (s : rso) : Except ggufErr (List Nat × rso) :=
  if version = 1 then readStringV1 s
  else
    let (n, s1) := readU64 s
    if 2 ^ 63 ≤ n then .ok ([], s1)
    else if s1.pos + n ≤ s1.data.length then
      .ok (s1.peek n, ⟨s1.data, s1.pos + n⟩)
    else .error .copyEof

/-- One array element in `readArrayV1`: the version-1 switch recognizes the
eight scalar tags and the string tag only (tags 0 through 8); anything else,
including the 64-bit scalar tags and the array tag itself, hits the default
case and fails carrying the offending tag. -/
def readArrayElemV1 (atype : Nat) (s : rso) : Except ggufErr (gScalar × rso) :=
  match atype with
  | 0 => let (v, s') := readU8 s; .ok (.u8 v, s')
  | 1 => let (v, s') := readI8 s; .ok (.i8 v, s')
  | 2 => let (v, s') := readU16 s; .ok (.u16 v, s')
  | 3 => let (v, s') := readI16 s; .ok (.i16 v, s')
  | 4 => let (v, s') := readU32 s; .ok (.u32 v, s')
  | 5 => let (v, s') := readI32 s; .ok (.i32 v, s')
  | 6 => let (v, s') := readF32 s; .ok (.f32 v, s')
  | 7 => let (v, s') := readBool s; .ok (.bool v, s')
  | 8 =>
    match readStringV1 s with
    | .error e => .error e
    | .ok (b, s') => .ok (.str b, s')
  | t => .error (.invalidArrayType t)

/-- One array element in `readArray` (versions other than 1): all scalar
tags, the string tag and the 64-bit tags are recognized; the array tag (9)
and tags above 12 hit the default case and fail carrying the tag. -/
def readArrayElemV2 (version atype : Nat) (s : rso) : Except ggufErr (gScalar × rso) :=
  match atype with
  | 0 => let (v, s') := readU8 s; .ok (.u8 v, s')
  | 1 => let (v, s') := readI8 s; .ok (.i8 v, s')
  | 2 => let (v, s') := readU16 s; .ok (.u16 v, s')
  | 3 => let (v, s') := readI16 s; .ok (.i16 v, s')
  | 4 => let (v, s') := readU32 s; .ok (.u32 v, s')
  | 5 => let (v, s') := readI32 s; .ok (.i32 v, s')
  | 6 => let (v, s') := readF32 s; .ok (.f32 v, s')
  | 7 => let (v, s') := readBool s; .ok (.bool v, s')
  | 8 =>
    match readString version s with
    | .error e => .error e
    | .ok (b, s') => .ok (.str b, s')
  | 10 => let (v, s') := readU64 s; .ok (.u64 v, s')
  | 11 => let (v, s') := readI64 s; .ok (.i64 v, s')
  | 12 => let (v, s') := readF64 s; .ok (.f64 v, s')
  | t => .error (.invalidArrayType t)

/-- Element loop shared by both array readers: the element-type switch sits
inside the loop body, so it is only ever evaluated when the element count is
nonzero. -/
def readArrayLoop (f : rso → Except ggufErr (gScalar × rso)) :
    Nat → rso → Except ggufErr (List gScalar × rso)
  | 0, s => .ok ([], s)
  | n + 1, s =>
    match f s with
    | .error e => .error e
    | .ok (v, s') =>
      match readArrayLoop f n s' with
      | .error e => .error e
      | .ok (vs, s'') => .ok (v :: vs, s'')

/-- Source `readArrayV1`: element type tag (32-bit) and element count
(32-bit), both with errors ignored, then the element loop. -/
def readArrayV1 (s : rso) : Except ggufErr (List gScalar × rso) :=
  let (atype, s1) := readU32 s
  let (n, s2) := readU32 s1
  readArrayLoop (readArrayElemV1 atype) n s2

/-- Source `readArray`: version 1 dispatches to `readArrayV1`; later
versions read a 32-bit element type tag and a 64-bit element count. -/
def readArray (version : Nat) (s : rso) : Except ggufErr (List gScalar × rso) :=
  if version = 1 then readArrayV1 s
  else
    let (atype, s1) := readU32 s
    let (n, s2) := readU64 s1
    readArrayLoop (readArrayElemV2 version atype) n s2

/-- Typed-value switch of the key/value loop in `modelGGUF.decode`: one case
per tag 0 through 12, otherwise the invalid-type error carrying the tag. -/
def readKVValue (version vtype : Nat) (s : rso) : Except ggufErr (gValue × rso) :=
  match vtype with
  | 0 => let (v, s') := readU8 s; .ok (.scalar (.u8 v), s')
  | 1 => let (v, s') := readI8 s; .ok (.scalar (.i8 v), s')
  | 2 => let (v, s') := readU16 s; .ok (.scalar (.u16 v), s')
  | 3 => let (v, s') := readI16 s; .ok (.scalar (.i16 v), s')
  | 4 => let (v, s') := readU32 s; .ok (.scalar (.u32 v), s')
  | 5 => let (v, s') := readI32 s; .ok (.scalar (.i32 v), s')
  | 6 => let (v, s') := readF32 s; .ok (.scalar (.f32 v), s')
  | 7 => let (v, s') := readBool s; .ok (.scalar (.bool v), s')
  | 8 =>
    match readString version s with
    | .error e => .error e
    | .ok (b, s') => .ok (.scalar (.str b), s')
  | 9 =>
    match readArray version s with
    | .error e => .error e
    | .ok (a, s') => .ok (.arr a, s')
  | 10 => let (v, s') := readU64 s; .ok (.scalar (.u64 v), s')
  | 11 => let (v, s') := readI64 s; .ok (.scalar (.i64 v), s')
  | 12 => let (v, s') := readF64 s; .ok (.scalar (.f64 v), s')
  | t => .error (.invalidType t)

/-- One iteration of the key/value loop: read the key, the 32-bit type tag
(error ignored) and the typed value, then insert the pair unless the tag is
the array tag or the key is the chat-template key. -/
def kvStep (version : Nat) (s : rso) (st : KV) : Except ggufErr (KV × rso) :=
  match readString version s with
  | .error e => .error e
  | .ok (k, s1) =>
    let (vtype, s2) := readU32 s1
    match readKVValue version vtype s2 with
    | .error e => .error e
    | .ok (v, s3) =>
      if vtype ≠ 9 ∧ k ≠ chatTemplateKey then
        .ok (kvInsert st k v, s3)
      else
        .ok (st, s3)

/-- Key/value loop of `modelGGUF.decode`, iterated `NumKV()` times. -/
def kvLoop (version : Nat) : Nat → rso → KV → Except ggufErr (KV × rso)
  | 0, s, st => .ok (st, s)
  | n + 1, s, st =>
    match kvStep version s st with
    | .error e => .error e
    | .ok (st', s') => kvLoop version n s' st'

/-- Tensor descriptor of the source (`tensor`): name, quantization kind,
shape and data-section byte offset. -/
structure tensor where
  Name : List Nat
  Kind : Nat
  Shape : List Nat
  offset : Nat
deriving DecidableEq, Repr

/-- Modelled from the spec: the tensor-size oracle of section 4.4 is
implemented outside the provided sources (only its call sites
`tensor.parameters()` and `tensor.size()` appear in `gguf.go`/`ggla.go`).
Per the spec it is a fixed per-kind table of elements-per-block and
bytes-per-block; unquantized kinds are one element per block of the scalar
width. The table below lists a sample of published kinds (F32, F16, Q4_0,
Q4_1, Q5_0, Q5_1, Q8_0); the spec makes an absent kind a decode error, but
the call sites in the provided sources consume a plain integer, so an
absent kind is given zero bytes per block here — no claim below depends on
an absent kind. -/
def blockInfo (kind : Nat) : Nat × Nat :=
  match kind with
  | 0 => (1, 4)
  | 1 => (1, 2)
  | 2 => (32, 18)
  | 3 => (32, 20)
  | 6 => (32, 22)
  | 7 => (32, 24)
  | 8 => (32, 34)
  | _ => (1, 0)

/-- Modelled from the spec: `tensor.parameters()` is the element count, the
product of all shape dimensions, accumulated in a `uint64`. -/
def tensorParameters (t : tensor) : Nat :=
  t.Shape.foldl (fun a n => a * n % 2 ^ 64) 1

/-- Modelled from the spec: `tensor.size()` is the byte footprint,
`element_count * bytes_per_block / elements_per_block` in `uint64`
arithmetic. -/
def tensorSize (t : tensor) : Nat :=
  tensorParameters t * (blockInfo t.Kind).2 % 2 ^ 64 / (blockInfo t.Kind).1

/-- Shape reader of the GGUF tensor loop: `dims` 64-bit values in stream
order, errors ignored. -/
def readShapeU64 : Nat → rso → List Nat × rso
  | 0, s => ([], s)
  | n + 1, s =>
    let (v, s') := readU64 s
    let (vs, s'') := readShapeU64 n s'
    (v :: vs, s'')

/-- One iteration of the tensor loop of `modelGGUF.decode`: name, 32-bit
dimension count, that many 64-bit shape values in stream order (no
reversal), 32-bit kind, 64-bit offset; the scalar reads ignore errors. -/
def tensorStep (version : Nat) (s : rso) : Except ggufErr (tensor × rso) :=
  match readString version s with
  | .error e => .error e
  | .ok (name, s1) =>
    let (dims, s2) := readU32 s1
    let (shape, s3) := readShapeU64 dims s2
    let (kind, s4) := readU32 s3
    let (off, s5) := readU64 s4
    .ok (⟨name, kind, shape, off⟩, s5)

/-- Tensor loop of `modelGGUF.decode`, iterated `NumTensor()` times,
accumulating the descriptors in declaration order and the running
`uint64` parameter total. -/
def tensorLoop (version : Nat) :
    Nat → rso → List tensor → Nat → Except ggufErr (List tensor × Nat × rso)
  | 0, s, ts, p => .ok (ts, p, s)
  | n + 1, s, ts, p =>
    match tensorStep version s with
    | .error e => .error e
    | .ok (t, s') =>
      tensorLoop version n s' (ts ++ [t]) ((p + tensorParameters t) % 2 ^ 64)

/-- Alignment selection of `modelGGUF.decode`: the type assertion
`llm.kv[...alignment key...].(uint32)` succeeds only when the key is bound
to the `uint32` variant; otherwise the default 32 is used. -/
def ggufAlignment (st : KV) : Nat :=
  match kvGet st alignmentKey with
  | some (.scalar (.u32 a)) => a
  | _ => 32

/-- Per-tensor skip distance of `modelGGUF.decode`:
`(int64(size) + int64(a) - 1) & ^(int64(a) - 1)` computed in 64-bit two's
complement, i.e. a bitwise AND with `2 ^ 64 - a`. -/
def ggufSkip (a size : Nat) : Nat :=
  (size + a - 1) &&& (2 ^ 64 - a)

/-- Decoded GGUF model: container version, metadata store, tensor
descriptors in declaration order, and the accumulated parameter total. -/
structure modelGGUF where
  version : Nat
  kv : KV
  tensors : List tensor
  parameters : Nat
deriving DecidableEq, Repr

/-- Body of `modelGGUF.decode`: the key/value loop, the tensor loop, the
unconditional insertion of the synthesized parameter-count key, alignment
selection, the pad-to-alignment seek `+ (a - pos % a)`, and one aligned
skip per tensor. A zero alignment override would make `pos % 0` panic in
Go; that is surfaced as an error value here. -/
def ggufBody (version numKV numTensor : Nat) (s : rso) :
    Except ggufErr (modelGGUF × rso) :=
  match kvLoop version numKV s ∅ with
  | .error e => .error e
  | .ok (kv1, s1) =>
    match tensorLoop version numTensor s1 [] 0 with
    | .error e => .error e
    | .ok (ts, params, s2) =>
      let kv2 := kvInsert kv1 paramCountKey (.scalar (.u64 params))
      let a := ggufAlignment kv2
      if a = 0 then .error .divByZeroPanic
      else
        let s3 : rso := ⟨s2.data, s2.pos + (a - s2.pos % a)⟩
        let s4 : rso := ts.foldl (fun s t => ⟨s.data, s.pos + ggufSkip a (tensorSize t)⟩) s3
        .ok (⟨version, kv2, ts, params⟩, s4)

/-- Source `containerGGUF.Decode`: version (32-bit, error ignored), then the
count pair — one `binary.Read` into a two-field struct, 32-bit fields for
version 1 and 64-bit fields otherwise, `NumTensor` first, error ignored (a
short read leaves both counts zero) — then the decode body. -/
def ggufDecode (s : rso) : Except ggufErr (modelGGUF × rso) :=
  let r0 := readU32 s
  if r0.1 = 1 then
    let r1 := readLax 8 r0.2
    ggufBody r0.1 (leVal (r1.1.drop 4) % 2 ^ 32) (leVal (r1.1.take 4) % 2 ^ 32) r1.2
  else
    let r1 := readLax 16 r0.2
    ggufBody r0.1 (leVal (r1.1.drop 8) % 2 ^ 64) (leVal (r1.1.take 8) % 2 ^ 64) r1.2

/-- Error result of a checked `binary.Read` in `ggla.go`: `io.EOF` when no
byte was available, `io.ErrUnexpectedEOF` on a short read. -/
inductive readErr where
  | eof
  | unexpectedEof
deriving DecidableEq, Repr

/-- Checked read of exactly `n` bytes, as `binary.Read` behaves in
`ggla.go`: a zero-length read always succeeds; otherwise the read fails
with `eof` when nothing is available (position unchanged) and with
`unexpectedEof` when only part is (the remainder is consumed). -/
def readExact (n : Nat) (s : rso) : Except (readErr × rso) (List Nat × rso) :=
  if n = 0 then .ok ([], s)
  else if s.pos + n ≤ s.data.length then .ok (s.peek n, ⟨s.data, s.pos + n⟩)
  else if s.data.length ≤ s.pos then .error (.eof, s)
  else .error (.unexpectedEof, ⟨s.data, s.data.length⟩)

/-- Checked 32-bit little-endian read (`binary.Read` into a `uint32` with
its error checked, as everywhere in `modelGGLA.decode`). -/
def readU32c (s : rso) : Except (readErr × rso) (Nat × rso) :=
  match readExact 4 s with
  | .error e => .error e
  | .ok (bs, s') => .ok (leVal bs % 2 ^ 32, s')

/-- Value of the four little-endian bytes found at position `p` of a byte
list. -/
def u32At (data : List Nat) (p : Nat) : Nat :=
  leVal ((data.drop p).take 4) % 2 ^ 32

/-- Wire-order dimension list of a GGLA tensor entry: `n` 32-bit values
each widened to 64 bits (`uint64(shape32)`), read with checked errors. -/
def readShape32 : Nat → rso → Except (readErr × rso) (List Nat × rso)
  | 0, s => .ok ([], s)
  | n + 1, s =>
    match readU32c s with
    | .error e => .error e
    | .ok (v, s') =>
      match readShape32 n s' with
      | .error e => .error e
      | .ok (vs, s'') => .ok (v :: vs, s'')

/-- Round a position up to the next multiple of 32, the effect of the
absolute seek to `(rso.offset + 31) & -32` in `modelGGLA.decode` for any
offset representable in `int64`. -/
def alignUp32 (p : Nat) : Nat := (p + 31) / 32 * 32

/-- One iteration of the GGLA tensor loop: 32-bit dimension count, 32-bit
name length, 32-bit kind, the wire-order dimensions (each widened from 32
bits), the shape reversal, the raw name bytes, the seek up to the next
32-byte boundary (which becomes the tensor's offset), and the seek past the
tensor's byte size. -/
def gglaReadEntry (s : rso) : Except (readErr × rso) (tensor × rso) :=
  match readU32c s with
  | .error e => .error e
  | .ok (dims, s1) =>
    match readU32c s1 with
    | .error e => .error e
    | .ok (namesize, s2) =>
      match readU32c s2 with
      | .error e => .error e
      | .ok (kind, s3) =>
        match readShape32 dims s3 with
        | .error e => .error e
        | .ok (shape, s4) =>
          match readExact namesize s4 with
          | .error e => .error e
          | .ok (name, s5) =>
            let off := alignUp32 s5.pos
            let t : tensor := ⟨name, kind, shape.reverse, off⟩
            .ok (t, ⟨s5.data, off + tensorSize t⟩)

/-- Fuel-indexed unfolding of the GGLA tensor loop. The loop of the source
has no terminating count: it runs until an entry read fails. Every
successful entry consumes at least twelve bytes of the remaining stream, so
`remaining + 1` units of fuel always suffice; `gglaLoop_eq` below proves the
fuel-free unfolding equation, and the fuel-exhausted result is never
reached (when the fuel is zero the position is already past the end and the
first read fails with the same result). -/
def gglaLoopAux : Nat → rso → List tensor → List tensor × readErr × rso
  | 0, s, acc => (acc, .eof, s)
  | fuel + 1, s, acc =>
    match gglaReadEntry s with
    | .error (e, s') => (acc, e, s')
    | .ok (t, s') => gglaLoopAux fuel s' (acc ++ [t])

/-- Tensor loop of `modelGGLA.decode`: no terminating count, it runs until
an entry read fails and returns the accumulated descriptors together with
the terminating error and the stream at the failure. -/
def gglaLoop (s : rso) (acc : List tensor) : List tensor × readErr × rso :=
  gglaLoopAux (s.data.length + 1 - s.pos) s acc

/-- Byte string of the literal key spelling r. -/
def rKey : List Nat := [114]

/-- Byte string of the literal key spelling alpha. -/
def alphaKey : List Nat := [97, 108, 112, 104, 97]

/-- Body of `modelGGLA.decode`: the two checked 32-bit hyperparameters
inserted under their fixed keys, then the tensor loop. Every path ends in
an error, which is returned together with whatever was accumulated. -/
def gglaDecodeM (s : rso) : KV × List tensor × readErr × rso :=
  match readU32c s with
  | .error (e, se) => (∅, [], e, se)
  | .ok (r, s1) =>
    let kv1 := kvInsert ∅ rKey (.scalar (.u32 r))
    match readU32c s1 with
    | .error (e, se) => (kv1, [], e, se)
    | .ok (alpha, s2) =>
      let kv2 := kvInsert kv1 alphaKey (.scalar (.u32 alpha))
      let (ts, e, s') := gglaLoop s2 []
      (kv2, ts, e, s')

/-- Decoded GGLA model: metadata store and tensor descriptors. -/
structure modelGGLA where
  kv : KV
  tensors : List tensor
deriving DecidableEq, Repr

/-- Errors of `containerGGLA.Decode`: the invalid-version error, or the
read error with which the tensor loop terminated. -/
inductive gglaErr where
  | invalidVersion
  | read (e : readErr)
deriving DecidableEq, Repr

/-- Source `containerGGLA.Decode`: 32-bit version with its error ignored;
only version 1 proceeds — anything else returns a nil model and the
invalid-version error without reading further. For version 1 the partially
populated model is returned together with whatever error `decode`
ended with. -/
def gglaDecode (s : rso) : Option modelGGLA × Option gglaErr × rso :=
  let (version, s1) := readU32 s
  if version = 1 then
    let (kv, ts, e, s') := gglaDecodeM s1
    (some ⟨kv, ts⟩, some (.read e), s')
  else
    (none, some .invalidVersion, s1)

/-- Little-endian encoding of a 32-bit value as four bytes. -/
def u32le (n : Nat) : List Nat :=
  [n % 256, n / 256 % 256, n / 65536 % 256, n / 16777216 % 256]

/-- Little-endian encoding of a 64-bit value as eight bytes. -/
def u64le (n : Nat) : List Nat :=
  u32le (n % 2 ^ 32) ++ u32le (n / 2 ^ 32)

/-- Property of a metadata entry that the key/value filter establishes: the
value is not the array variant and the key is not the chat-template key. -/
def kvEntryOk (p : List Nat × gValue) : Prop :=
  (∀ vs, p.2 ≠ gValue.arr vs) ∧ p.1 ≠ chatTemplateKey

/-- Running parameter total over a tensor list, exactly the `uint64`
accumulation of the tensor loop. -/
def sumParams (ts : List tensor) : Nat :=
  ts.foldl (fun a t => (a + tensorParameters t) % 2 ^ 64) 0

/-- Smallest multiple of `a` not less than `S`, written from the claim text
(the reference quantity the skip distance is claimed to equal). -/
def roundUpMul (a S : Nat) : Nat := (S + a - 1) / a * a

/-- Stream position after advancing to the next alignment boundary as the
claim words it: advance by zero when the position is already a multiple of
the alignment. -/
def padToAlignedSpec (a p : Nat) : Nat := p + (a - p % a) % a

/-- Concrete GGUF byte stream: version 2, no tensors, one key/value entry
(a 31-byte key, a `uint8` value), crafted so that the position after both
decode loops (64) is already a multiple of the default alignment 32. -/
def c1Input : List Nat :=
  u32le 2 ++ u64le 0 ++ u64le 1 ++
    u64le 31 ++ List.replicate 31 97 ++ u32le 0 ++ [7]

/-- Concrete GGUF byte stream: version 2, no tensors, no key/value
entries. -/
def c2Input : List Nat := u32le 2 ++ u64le 0 ++ u64le 0

/-- Concrete GGUF byte stream: version 2, no tensors, one key/value entry
of array type whose element-type tag is the array tag 9 and whose element
count is zero. -/
def c4Input : List Nat :=
  u32le 2 ++ u64le 0 ++ u64le 1 ++
    u64le 1 ++ [97] ++ u32le 9 ++ u32le 9 ++ u64le 0

/-- Concrete GGUF byte stream: version 2, no tensors, one declared
key/value entry, truncated right after the key — the value type tag and
the value itself are missing. -/
def c6Input : List Nat :=
  u32le 2 ++ u64le 0 ++ u64le 1 ++ u64le 1 ++ [97]

/-- Concrete GGUF byte stream: version 2, no tensors, one key/value entry
binding the parameter-count key to the `uint64` value 999 directly in the
stream. -/
def c7Input : List Nat :=
  u32le 2 ++ u64le 0 ++ u64le 1 ++
    u64le 23 ++ paramCountKey ++ u32le 10 ++ u64le 999

/-- Concrete GGLA tensor entry: two dimensions, a one-byte name, kind 0,
wire-order dimensions 3 then 5. -/
def c3Entry : List Nat :=
  u32le 2 ++ u32le 1 ++ u32le 0 ++ u32le 3 ++ u32le 5 ++ [119]

/-- Concrete GGLA byte stream: version 1, the two hyperparameters, then
end of stream exactly at a tensor-entry boundary. -/
def c9Input : List Nat := u32le 1 ++ u32le 2 ++ u32le 3

-- ## Lemmas


theorem readExact_ok {n : Nat} {s : rso} {bs : List Nat} {s' : rso}
    (h : readExact n s = .ok (bs, s')) :
    s'.data = s.data ∧ s'.pos = s.pos + n ∧ bs = s.peek n ∧
      (n = 0 ∨ s.pos + n ≤ s.data.length) := by
  unfold readExact at h
  split at h
  · rename_i h0
    simp only [Except.ok.injEq, Prod.mk.injEq] at h
    obtain ⟨hbs, hs⟩ := h
    subst hs
    subst h0
    refine ⟨rfl, by omega, ?_, Or.inl rfl⟩
    simp [rso.peek, hbs.symm]
  · split at h
    · rename_i hle
      simp only [Except.ok.injEq, Prod.mk.injEq] at h
      obtain ⟨hbs, hs⟩ := h
      subst hs
      exact ⟨rfl, rfl, hbs.symm, Or.inr hle⟩
    · split at h <;> simp_all

theorem readU32c_ok {s : rso} {v : Nat} {s' : rso}
    (h : readU32c s = .ok (v, s')) :
    s'.data = s.data ∧ s'.pos = s.pos + 4 ∧ s.pos + 4 ≤ s.data.length ∧
      v = u32At s.data s.pos := by
  unfold readU32c at h
  cases he : readExact 4 s with
  | error e => rw [he] at h; exact absurd h (by simp)
  | ok r =>
    obtain ⟨bs, s1⟩ := r
    rw [he] at h
    simp only [Except.ok.injEq, Prod.mk.injEq] at h
    obtain ⟨hv, hs⟩ := h
    have p := readExact_ok he
    subst hs
    refine ⟨p.1, p.2.1, ?_, ?_⟩
    · rcases p.2.2.2 with h0 | hle
      · omega
      · exact hle
    · rw [← hv, p.2.2.1]
      rfl

theorem readShape32_ok {n : Nat} {s : rso} {shape : List Nat} {s' : rso}
    (h : readShape32 n s = .ok (shape, s')) :
    s'.data = s.data ∧ s'.pos = s.pos + 4 * n ∧ shape.length = n ∧
      ∀ i, i < n → shape.getD i 0 = u32At s.data (s.pos + 4 * i) := by
  induction n generalizing s shape s' with
  | zero =>
    unfold readShape32 at h
    simp only [Except.ok.injEq, Prod.mk.injEq] at h
    obtain ⟨h1, h2⟩ := h
    subst h1 h2
    exact ⟨rfl, by omega, rfl, fun i hi => by omega⟩
  | succ m ih =>
    unfold readShape32 at h
    cases h1 : readU32c s with
    | error e => rw [h1] at h; exact absurd h (by simp)
    | ok r1 =>
      obtain ⟨v, s1⟩ := r1
      rw [h1] at h
      simp only at h
      cases h2 : readShape32 m s1 with
      | error e => rw [h2] at h; exact absurd h (by simp)
      | ok r2 =>
        obtain ⟨vs, s2⟩ := r2
        rw [h2] at h
        simp only [Except.ok.injEq, Prod.mk.injEq] at h
        obtain ⟨hsh, hs⟩ := h
        subst hsh hs
        have hu := readU32c_ok h1
        have hrec := ih h2
        have hdata : s2.data = s.data := by rw [hrec.1, hu.1]
        refine ⟨hdata, ?_, ?_, ?_⟩
        · rw [hrec.2.1, hu.2.1]; ring
        · simp [hrec.2.2.1]
        · intro i hilt
          match i with
          | 0 =>
            simpa using hu.2.2.2
          | j + 1 =>
            have := hrec.2.2.2 j (by omega)
            simp only [List.getD_cons_succ]
            rw [this, hu.1, hu.2.1]
            congr 1
            ring

theorem gglaReadEntry_progress {s : rso} {t : tensor} {s' : rso}
    (h : gglaReadEntry s = .ok (t, s')) :
    s'.data = s.data ∧ s.pos + 4 ≤ s.data.length ∧ s.pos + 12 ≤ s'.pos := by
  unfold gglaReadEntry at h
  cases h1 : readU32c s with
  | error e => rw [h1] at h; exact absurd h (by simp)
  | ok r1 =>
  obtain ⟨dims, s1⟩ := r1
  rw [h1] at h
  simp only at h
  cases h2 : readU32c s1 with
  | error e => rw [h2] at h; exact absurd h (by simp)
  | ok r2 =>
  obtain ⟨namesize, s2⟩ := r2
  rw [h2] at h
  simp only at h
  cases h3 : readU32c s2 with
  | error e => rw [h3] at h; exact absurd h (by simp)
  | ok r3 =>
  obtain ⟨kind, s3⟩ := r3
  rw [h3] at h
  simp only at h
  cases h4 : readShape32 dims s3 with
  | error e => rw [h4] at h; exact absurd h (by simp)
  | ok r4 =>
  obtain ⟨shape, s4⟩ := r4
  rw [h4] at h
  simp only at h
  cases h5 : readExact namesize s4 with
  | error e => rw [h5] at h; exact absurd h (by simp)
  | ok r5 =>
  obtain ⟨name, s5⟩ := r5
  rw [h5] at h
  simp only [Except.ok.injEq, Prod.mk.injEq] at h
  obtain ⟨ht, hs⟩ := h
  have p1 := readU32c_ok h1
  have p2 := readU32c_ok h2
  have p3 := readU32c_ok h3
  have p4 := readShape32_ok h4
  have p5 := readExact_ok h5
  have halign : s5.pos ≤ alignUp32 s5.pos := by unfold alignUp32; omega
  have hdata : s5.data = s.data := by
    rw [p5.1, p4.1, p3.1, p2.1, p1.1]
  have hpos : s5.pos = s.pos + 12 + 4 * dims + namesize := by
    have a1 := p1.2.1
    have a2 := p2.2.1
    have a3 := p3.2.1
    have a4 := p4.2.1
    have a5 := p5.2.1
    omega
  have hsd : s'.data = s5.data := by rw [← hs]
  have hsp : s'.pos = alignUp32 s5.pos +
      tensorSize ⟨name, kind, shape.reverse, alignUp32 s5.pos⟩ := by rw [← hs]
  exact ⟨hsd.trans hdata, p1.2.2.1, by omega⟩

theorem kvGet_kvInsert (st : KV) (k : List Nat) (v : gValue) (k' : List Nat) :
    kvGet (kvInsert st k v) k' = if k = k' then some v else kvGet st k' := by
  induction st with
  | nil => simp only [kvInsert, kvGet]
  | cons p rest ih =>
    obtain ⟨k0, v0⟩ := p
    by_cases h0 : k0 = k
    · subst h0
      simp only [kvInsert, if_pos rfl, kvGet]
      by_cases h1 : k0 = k'
      · simp [h1]
      · simp [h1]
    · simp only [kvInsert, if_neg h0, kvGet, ih]
      by_cases h1 : k0 = k'
      · subst h1
        have hkk : ¬ k = k0 := fun hc => h0 hc.symm
        simp [hkk]
      · simp [h1]

theorem mem_kvInsert {p : List Nat × gValue} {st : KV} {k : List Nat} {v : gValue}
    (h : p ∈ kvInsert st k v) : p = (k, v) ∨ p ∈ st := by
  induction st with
  | nil =>
    unfold kvInsert at h
    simp at h
    exact Or.inl h
  | cons q rest ih =>
    obtain ⟨k0, v0⟩ := q
    unfold kvInsert at h
    split at h
    · rcases List.mem_cons.mp h with h1 | h1
      · exact Or.inl h1
      · exact Or.inr (List.mem_cons_of_mem _ h1)
    · rcases List.mem_cons.mp h with h1 | h1
      · exact Or.inr (h1 ▸ List.mem_cons_self _ _)
      · rcases ih h1 with h2 | h2
        · exact Or.inl h2
        · exact Or.inr (List.mem_cons_of_mem _ h2)

theorem kvGet_mem {st : KV} {k : List Nat} {v : gValue}
    (h : kvGet st k = some v) : (k, v) ∈ st := by
  induction st with
  | nil => simp [kvGet] at h
  | cons p rest ih =>
    obtain ⟨k0, v0⟩ := p
    unfold kvGet at h
    split at h
    · rename_i he
      subst he
      simp at h
      subst h
      exact List.mem_cons_self _ _
    · exact List.mem_cons_of_mem _ (ih h)

theorem readKVValue_ok_not_arr {version vtype : Nat} {s : rso} {v : gValue} {s' : rso}
    (hv : vtype ≠ 9) (h : readKVValue version vtype s = .ok (v, s')) :
    ∀ vs, v ≠ gValue.arr vs := by
  intro vs hc
  subst hc
  unfold readKVValue at h
  rcases vtype with _|_|_|_|_|_|_|_|_|_|_|_|_|t
  all_goals simp_all
  cases hs : readString version s with
  | error e => rw [hs] at h; exact absurd h (by simp)
  | ok r =>
    obtain ⟨b, s1⟩ := r
    rw [hs] at h
    exact absurd h (by simp)

theorem kvStep_inv {version : Nat} {s : rso} {st st' : KV} {s' : rso}
    (hst : ∀ p ∈ st, kvEntryOk p) (h : kvStep version s st = .ok (st', s')) :
    ∀ p ∈ st', kvEntryOk p := by
  unfold kvStep at h
  cases hk : readString version s with
  | error e => rw [hk] at h; exact absurd h (by simp)
  | ok rk =>
    obtain ⟨k, s1⟩ := rk
    rw [hk] at h
    simp only at h
    cases hv : readKVValue version (readU32 s1).1 (readU32 s1).2 with
    | error e => rw [hv] at h; exact absurd h (by simp)
    | ok rv =>
      obtain ⟨v, s3⟩ := rv
      rw [hv] at h
      simp only at h
      split at h
      · rename_i hcond
        simp only [Except.ok.injEq, Prod.mk.injEq] at h
        obtain ⟨h1, h2⟩ := h
        subst h1
        intro p hp
        rcases mem_kvInsert hp with hpe | hpm
        · subst hpe
          exact ⟨readKVValue_ok_not_arr hcond.1 hv, hcond.2⟩
        · exact hst p hpm
      · simp only [Except.ok.injEq, Prod.mk.injEq] at h
        obtain ⟨h1, h2⟩ := h
        subst h1
        exact hst

theorem kvLoop_inv {version : Nat} {n : Nat} {s : rso} {st st' : KV} {s' : rso}
    (hst : ∀ p ∈ st, kvEntryOk p) (h : kvLoop version n s st = .ok (st', s')) :
    ∀ p ∈ st', kvEntryOk p := by
  induction n generalizing s st with
  | zero =>
    unfold kvLoop at h
    simp only [Except.ok.injEq, Prod.mk.injEq] at h
    exact h.1 ▸ hst
  | succ m ih =>
    unfold kvLoop at h
    cases hk : kvStep version s st with
    | error e => rw [hk] at h; exact absurd h (by simp)
    | ok r =>
      obtain ⟨st1, s1⟩ := r
      rw [hk] at h
      exact ih (kvStep_inv hst hk) h

theorem tensorLoop_ok {version n : Nat} {s : rso} {ts0 : List tensor} {p0 : Nat}
    {ts : List tensor} {p : Nat} {s' : rso}
    (h : tensorLoop version n s ts0 p0 = .ok (ts, p, s')) :
    ∃ new, ts = ts0 ++ new ∧
      p = new.foldl (fun a t => (a + tensorParameters t) % 2 ^ 64) p0 := by
  induction n generalizing s ts0 p0 with
  | zero =>
    unfold tensorLoop at h
    simp only [Except.ok.injEq, Prod.mk.injEq] at h
    exact ⟨[], by simp [← h.1], by simp [← h.2.1]⟩
  | succ m ih =>
    unfold tensorLoop at h
    cases ht : tensorStep version s with
    | error e => rw [ht] at h; exact absurd h (by simp)
    | ok r =>
      obtain ⟨t, s1⟩ := r
      rw [ht] at h
      simp only at h
      obtain ⟨new', hts, hp⟩ := ih h
      exact ⟨t :: new', by simp [hts], by simp [hp]⟩

theorem skipFold_eq (a : Nat) (ts : List tensor) (s : rso) :
    ts.foldl (fun s t => ⟨s.data, s.pos + ggufSkip a (tensorSize t)⟩) s =
      ⟨s.data, s.pos + (ts.map fun t => ggufSkip a (tensorSize t)).sum⟩ := by
  induction ts generalizing s with
  | nil => simp
  | cons t rest ih =>
    simp only [List.foldl_cons, List.map_cons, List.sum_cons]
    rw [ih]
    simp [Nat.add_assoc]

theorem ggufBody_ok {version numKV numTensor : Nat} {s : rso} {m : modelGGUF} {sF : rso}
    (h : ggufBody version numKV numTensor s = .ok (m, sF)) :
    ∃ kv1 s1 ts p s2,
      kvLoop version numKV s ∅ = .ok (kv1, s1) ∧
      tensorLoop version numTensor s1 [] 0 = .ok (ts, p, s2) ∧
      m = ⟨version, kvInsert kv1 paramCountKey (.scalar (.u64 p)), ts, p⟩ ∧
      ggufAlignment (kvInsert kv1 paramCountKey (.scalar (.u64 p))) ≠ 0 ∧
      sF = ⟨s2.data, s2.pos +
        (ggufAlignment (kvInsert kv1 paramCountKey (.scalar (.u64 p))) -
          s2.pos % ggufAlignment (kvInsert kv1 paramCountKey (.scalar (.u64 p)))) +
        (ts.map fun t => ggufSkip
          (ggufAlignment (kvInsert kv1 paramCountKey (.scalar (.u64 p))))
          (tensorSize t)).sum⟩ := by
  unfold ggufBody at h
  cases hk : kvLoop version numKV s ∅ with
  | error e => rw [hk] at h; exact absurd h (by simp)
  | ok rk =>
    obtain ⟨kv1, s1⟩ := rk
    rw [hk] at h
    simp only at h
    cases ht : tensorLoop version numTensor s1 [] 0 with
    | error e => rw [ht] at h; exact absurd h (by simp)
    | ok rt =>
      obtain ⟨ts, p, s2⟩ := rt
      rw [ht] at h
      simp only at h
      split at h
      · exact absurd h (by simp)
      · rename_i ha
        simp only [Except.ok.injEq, Prod.mk.injEq] at h
        obtain ⟨hm, hs⟩ := h
        refine ⟨kv1, s1, ts, p, s2, rfl, ht, hm.symm, ha, ?_⟩
        rw [← hs, skipFold_eq]

theorem ggufDecode_ok {s : rso} {r : modelGGUF × rso} (h : ggufDecode s = .ok r) :
    ∃ version numKV numTensor s2, ggufBody version numKV numTensor s2 = .ok r := by
  simp only [ggufDecode] at h
  split at h
  · exact ⟨_, _, _, _, h⟩
  · exact ⟨_, _, _, _, h⟩

theorem roundUpMul_least (a S : Nat) (ha : 0 < a) :
    S ≤ roundUpMul a S ∧ roundUpMul a S % a = 0 ∧
      ∀ m, S ≤ m → m % a = 0 → roundUpMul a S ≤ m := by
  unfold roundUpMul
  have hdm := Nat.div_add_mod (S + a - 1) a
  have hlt : (S + a - 1) % a < a := Nat.mod_lt _ ha
  refine ⟨?_, ?_, ?_⟩
  · rw [Nat.mul_comm]
    omega
  · exact Nat.mul_mod_left _ _
  · intro m hSm hma
    obtain ⟨j, hj⟩ := Nat.dvd_of_mod_eq_zero hma
    have hq : (S + a - 1) / a < j + 1 := by
      rw [Nat.div_lt_iff_lt_mul ha]
      have : a * j + a = (j + 1) * a := by ring
      omega
    calc (S + a - 1) / a * a ≤ j * a := Nat.mul_le_mul_right a (by omega)
    _ = m := by rw [hj]; ring

theorem ggufSkip_pow2 (k S : Nat) (hk : k ≤ 64) (hS : S + 2 ^ k ≤ 2 ^ 64) :
    ggufSkip (2 ^ k) S = roundUpMul (2 ^ k) S := by
  unfold ggufSkip roundUpMul
  have hy : S + 2 ^ k - 1 < 2 ^ 64 := by
    have h1 : (1 : Nat) ≤ 2 ^ k := Nat.one_le_two_pow
    omega
  have hmask : 2 ^ 64 - 2 ^ k = (2 ^ (64 - k) - 1) <<< k := by
    rw [Nat.shiftLeft_eq, Nat.sub_mul, ← Nat.pow_add, Nat.one_mul]
    congr 2
    omega
  have hrhs : (S + 2 ^ k - 1) / 2 ^ k * 2 ^ k = ((S + 2 ^ k - 1) >>> k) <<< k := by
    rw [Nat.shiftRight_eq_div_pow, Nat.shiftLeft_eq]
  rw [hmask, hrhs]
  apply Nat.eq_of_testBit_eq
  intro i
  rw [Nat.testBit_land, Nat.testBit_shiftLeft, Nat.testBit_shiftLeft,
    Nat.testBit_two_pow_sub_one, Nat.testBit_shiftRight]
  by_cases hik : k ≤ i
  · by_cases hi64 : i < 64
    · have h1 : i - k < 64 - k := by omega
      have h2 : k + (i - k) = i := by omega
      simp [hik, h1, h2, Bool.and_comm]
    · have h1 : ¬ (i - k < 64 - k) := by omega
      have h2 : (S + 2 ^ k - 1).testBit (k + (i - k)) = false := by
        apply Nat.testBit_lt_two_pow
        calc S + 2 ^ k - 1 < 2 ^ 64 := hy
        _ ≤ 2 ^ (k + (i - k)) := Nat.pow_le_pow_right (by omega) (by omega)
      have h3 : (S + 2 ^ k - 1).testBit i = false := by
        apply Nat.testBit_lt_two_pow
        calc S + 2 ^ k - 1 < 2 ^ 64 := hy
        _ ≤ 2 ^ i := Nat.pow_le_pow_right (by omega) (by omega)
      simp [hik, h1, h2, h3]
  · simp [hik]

theorem readKVValue_invalid {version t : Nat} (ht : 13 ≤ t) (s : rso) :
    readKVValue version t s = .error (.invalidType t) := by
  unfold readKVValue
  rcases t with _|_|_|_|_|_|_|_|_|_|_|_|_|t' <;> first | omega | rfl

theorem readArrayElemV1_invalid {atype : Nat} (h : 9 ≤ atype) (s : rso) :
    readArrayElemV1 atype s = .error (.invalidArrayType atype) := by
  unfold readArrayElemV1
  rcases atype with _|_|_|_|_|_|_|_|_|t' <;> first | omega | rfl

theorem readArrayElemV2_invalid {atype : Nat} (h : atype = 9 ∨ 13 ≤ atype)
    (version : Nat) (s : rso) :
    readArrayElemV2 version atype s = .error (.invalidArrayType atype) := by
  unfold readArrayElemV2
  rcases atype with _|_|_|_|_|_|_|_|_|_|_|_|_|t' <;> first | omega | rfl

theorem readArrayLoop_err {f : rso → Except ggufErr (gScalar × rso)} {n : Nat}
    {s : rso} {e : ggufErr} (hf : f s = .error e) :
    readArrayLoop f (n + 1) s = .error e := by
  unfold readArrayLoop
  rw [hf]

theorem kvLoop_err {version n : Nat} {s : rso} {st : KV} {e : ggufErr}
    (h : kvStep version s st = .error e) :
    kvLoop version (n + 1) s st = .error e := by
  unfold kvLoop
  rw [h]

theorem ggufBody_kvErr {version numKV numTensor : Nat} {s : rso} {e : ggufErr}
    (h : kvLoop version numKV s ∅ = .error e) :
    ggufBody version numKV numTensor s = .error e := by
  unfold ggufBody
  rw [h]

theorem gglaReadEntry_past_end {s : rso} (h : s.data.length ≤ s.pos) :
    gglaReadEntry s = .error (.eof, s) := by
  unfold gglaReadEntry readU32c readExact
  have h4 : ¬ s.pos + 4 ≤ s.data.length := by omega
  simp [h4, h]

theorem gglaLoopAux_congr :
    ∀ (fuel₁ fuel₂ : Nat) (s : rso) (acc : List tensor),
      s.data.length + 1 - s.pos ≤ fuel₁ → s.data.length + 1 - s.pos ≤ fuel₂ →
      gglaLoopAux fuel₁ s acc = gglaLoopAux fuel₂ s acc := by
  intro fuel₁
  induction fuel₁ with
  | zero =>
    intro fuel₂ s acc h1 h2
    have hend : s.data.length ≤ s.pos := by omega
    have he := gglaReadEntry_past_end hend
    cases fuel₂ with
    | zero => rfl
    | succ g =>
      unfold gglaLoopAux
      rw [he]
  | succ f ih =>
    intro fuel₂ s acc h1 h2
    cases fuel₂ with
    | zero =>
      have hend : s.data.length ≤ s.pos := by omega
      have he := gglaReadEntry_past_end hend
      unfold gglaLoopAux
      rw [he]
    | succ g =>
      unfold gglaLoopAux
      cases he : gglaReadEntry s with
      | error e => rfl
      | ok r =>
        obtain ⟨t, s'⟩ := r
        simp only
        have hp := gglaReadEntry_progress he
        apply ih
        · rw [hp.1]; omega
        · rw [hp.1]; omega

theorem gglaLoop_eq (s : rso) (acc : List tensor) :
    gglaLoop s acc =
      match gglaReadEntry s with
      | .error (e, s') => (acc, e, s')
      | .ok (t, s') => gglaLoop s' (acc ++ [t]) := by
  cases he : gglaReadEntry s with
  | error ep =>
    obtain ⟨e, sE⟩ := ep
    show gglaLoopAux (s.data.length + 1 - s.pos) s acc = (acc, e, sE)
    cases hfuel : s.data.length + 1 - s.pos with
    | zero =>
      have hend : s.data.length ≤ s.pos := by omega
      rw [gglaReadEntry_past_end hend] at he
      simp only [Except.error.injEq, Prod.mk.injEq] at he
      simp [gglaLoopAux, he.1, he.2]
    | succ f =>
      simp only [gglaLoopAux]
      rw [he]
  | ok r =>
    obtain ⟨t, s'⟩ := r
    show gglaLoopAux (s.data.length + 1 - s.pos) s acc = gglaLoop s' (acc ++ [t])
    have hp := gglaReadEntry_progress he
    cases hfuel : s.data.length + 1 - s.pos with
    | zero =>
      exfalso
      have hend : s.data.length ≤ s.pos := by omega
      rw [gglaReadEntry_past_end hend] at he
      exact absurd he (by simp)
    | succ f =>
      simp only [gglaLoopAux]
      rw [he]
      show gglaLoopAux f s' (acc ++ [t]) =
        gglaLoopAux (s'.data.length + 1 - s'.pos) s' (acc ++ [t])
      apply gglaLoopAux_congr
      · rw [hp.1]; omega
      · exact Nat.le.refl

-- ## Claim theorems

/-- C5: string decoding depends on the container version. When the version
is 1 the length is the 32-bit value `n` read first, and a successful read
returns the first `n` bytes with the last byte (the null terminator)
stripped, so the string has length `n - 1` (and `n ≥ 1`); for any other
version the length is the 64-bit value `n` and a successful read returns
exactly the `n` copied bytes, with no stripping. -/
theorem c5_string_version_rules :
    (∀ s n s1 k s', readU32 s = (n, s1) → readStringV1 s = .ok (k, s') →
      1 ≤ n ∧ k = (s1.peek n).dropLast ∧ k.length + 1 = n ∧
        s' = ⟨s1.data, s1.pos + n⟩) ∧
    (∀ version s n s1 k s', version ≠ 1 → readU64 s = (n, s1) → n < 2 ^ 63 →
      readString version s = .ok (k, s') →
      k = s1.peek n ∧ k.length = n ∧ s' = ⟨s1.data, s1.pos + n⟩) := by
  constructor
  · intro s n s1 k s' hu h
    unfold readStringV1 at h
    rw [hu] at h
    simp only at h
    split at h
    · exact absurd h (by simp)
    · rename_i hn0
      split at h
      · rename_i hle
        simp only [Except.ok.injEq, Prod.mk.injEq] at h
        obtain ⟨hk, hs⟩ := h
        have hlen : (s1.peek n).length = n := by
          unfold rso.peek
          rw [List.length_take, List.length_drop]
          omega
        refine ⟨by omega, hk.symm, ?_, hs.symm⟩
        rw [← hk, List.length_dropLast, hlen]
        omega
      · exact absurd h (by simp)
  · intro version s n s1 k s' hv hu hbig h
    unfold readString at h
    rw [if_neg hv, hu] at h
    simp only at h
    rw [if_neg (by omega : ¬ 2 ^ 63 ≤ n)] at h
    split at h
    · rename_i hle
      simp only [Except.ok.injEq, Prod.mk.injEq] at h
      obtain ⟨hk, hs⟩ := h
      have hlen : (s1.peek n).length = n := by
        unfold rso.peek
        rw [List.length_take, List.length_drop]
        omega
      exact ⟨hk.symm, by rw [← hk, hlen], hs.symm⟩
    · exact absurd h (by simp)

/-- C5 witness: both rules evaluated on concrete streams — a version-1
string of wire length 3 yielding the 2 first bytes, and a version-2 string
of wire length 2 yielding both bytes. -/
theorem c5_string_version_rules_witness :
    (1 ≤ 3 ∧ [97, 98] = ((rso.mk [3, 0, 0, 0, 97, 98, 0] 4).peek 3).dropLast ∧
      List.length [97, 98] + 1 = 3 ∧
      rso.mk [3, 0, 0, 0, 97, 98, 0] 7 = ⟨[3, 0, 0, 0, 97, 98, 0], 4 + 3⟩) ∧
    ([97, 98] = (rso.mk [2, 0, 0, 0, 0, 0, 0, 0, 97, 98] 8).peek 2 ∧
      List.length [97, 98] = 2 ∧
      rso.mk [2, 0, 0, 0, 0, 0, 0, 0, 97, 98] 10 =
        ⟨[2, 0, 0, 0, 0, 0, 0, 0, 97, 98], 8 + 2⟩) := by
  constructor
  · exact c5_string_version_rules.1 ⟨[3, 0, 0, 0, 97, 98, 0], 0⟩ 3
      ⟨[3, 0, 0, 0, 97, 98, 0], 4⟩ [97, 98] ⟨[3, 0, 0, 0, 97, 98, 0], 7⟩
      (by decide) (by decide)
  · exact c5_string_version_rules.2 2 ⟨[2, 0, 0, 0, 0, 0, 0, 0, 97, 98], 0⟩ 2
      ⟨[2, 0, 0, 0, 0, 0, 0, 0, 97, 98], 8⟩ [97, 98]
      ⟨[2, 0, 0, 0, 0, 0, 0, 0, 97, 98], 10⟩
      (by decide) (by decide) (by decide) (by decide)

/-- C10: in container version 1 a string whose 32-bit length prefix is zero
cannot be decoded — the truncation length `b.Len() - 1` is `-1` and
`bytes.Buffer.Truncate` panics (surfaced as the `truncPanic` error value) —
so every successfully produced version-1 string has a wire length of at
least 1. -/
theorem c10_v1_zero_length_string :
    (∀ s n s1, readU32 s = (n, s1) → n = 0 →
      readStringV1 s = .error .truncPanic) ∧
    (∀ s k s', readStringV1 s = .ok (k, s') → 1 ≤ (readU32 s).1) := by
  constructor
  · intro s n s1 hu hn
    unfold readStringV1
    rw [hu]
    simp only
    rw [if_pos hn]
  · intro s k s' h
    unfold readStringV1 at h
    rcases hu : readU32 s with ⟨n, s1⟩
    rw [hu] at h
    simp only at h
    split at h
    · exact absurd h (by simp)
    · rename_i hn0
      simp only
      omega

/-- C10 witness: the rules evaluated concretely — a zero length prefix
panics, and the successful read of the `c5` witness stream has wire length
3 ≥ 1. -/
theorem c10_v1_zero_length_string_witness :
    readStringV1 ⟨[0, 0, 0, 0, 7], 0⟩ = .error .truncPanic ∧
    1 ≤ (readU32 ⟨[3, 0, 0, 0, 97, 98, 0], 0⟩).1 := by
  constructor
  · exact c10_v1_zero_length_string.1 ⟨[0, 0, 0, 0, 7], 0⟩ 0
      ⟨[0, 0, 0, 0, 7], 4⟩ (by decide) rfl
  · exact c10_v1_zero_length_string.2 ⟨[3, 0, 0, 0, 97, 98, 0], 0⟩ [97, 98]
      ⟨[3, 0, 0, 0, 97, 98, 0], 7⟩ (by decide)

/-- C8: the GGLA decoder reads a 4-byte version and accepts only the value
1: for any stream whose version field reads as any other value, `Decode`
returns no model and the invalid-version error, and the stream has advanced
at most the four version bytes (nothing past the version field is read). -/
theorem c8_ggla_version_gate (s : rso) (v : Nat) (s1 : rso)
    (hv : readU32 s = (v, s1)) (hne : v ≠ 1) :
    gglaDecode s = (none, some .invalidVersion, s1) ∧
      s1.data = s.data ∧ s.pos ≤ s1.pos ∧ s1.pos ≤ s.pos + 4 := by
  have hs1 : s1 = (readU32 s).2 := by rw [hv]
  have hb : (readU32 s).2 = (readLax 4 s).2 := rfl
  constructor
  · unfold gglaDecode
    rw [hv]
    simp only
    rw [if_neg hne]
  · subst hs1
    rw [hb]
    unfold readLax
    split
    · refine ⟨rfl, ?_, ?_⟩ <;> dsimp only <;> omega
    · refine ⟨rfl, ?_, ?_⟩ <;> dsimp only <;> omega

/-- C8 witness: a stream whose version field is 2 is rejected with the
invalid-version error, no model, and the position advanced by exactly the
four version bytes. -/
theorem c8_ggla_version_gate_witness :
    gglaDecode ⟨[2, 0, 0, 0, 99], 0⟩ =
      (none, some .invalidVersion, ⟨[2, 0, 0, 0, 99], 4⟩) ∧
    rso.data ⟨[2, 0, 0, 0, 99], 4⟩ = rso.data ⟨[2, 0, 0, 0, 99], 0⟩ ∧
    rso.pos ⟨[2, 0, 0, 0, 99], 0⟩ ≤ rso.pos ⟨[2, 0, 0, 0, 99], 4⟩ ∧
    rso.pos ⟨[2, 0, 0, 0, 99], 4⟩ ≤ rso.pos ⟨[2, 0, 0, 0, 99], 0⟩ + 4 := by
  have h := c8_ggla_version_gate ⟨[2, 0, 0, 0, 99], 0⟩ 2 ⟨[2, 0, 0, 0, 99], 4⟩
    (by decide) (by decide)
  exact ⟨h.1, h.2.1, h.2.2.1, h.2.2.2⟩

/-- C2: for every stream on which the GGUF decode succeeds, the resulting
metadata store holds no entry under the chat-template key and no entry
whose value is the array variant; and one key/value iteration inserts the
decoded value under its key exactly when the type tag is not the array tag
and the key is not the chat-template key, discarding it otherwise. -/
theorem c2_kv_filter (s : rso) (m : modelGGUF) (sF : rso)
    (h : ggufDecode s = .ok (m, sF)) :
    kvGet m.kv chatTemplateKey = none ∧
    (∀ p ∈ m.kv, ∀ vs, p.2 ≠ gValue.arr vs) ∧
    (∀ version s0 st k s1 vtype s2 v s3,
      readString version s0 = .ok (k, s1) →
      readU32 s1 = (vtype, s2) →
      readKVValue version vtype s2 = .ok (v, s3) →
      kvStep version s0 st =
        .ok (if vtype ≠ 9 ∧ k ≠ chatTemplateKey then kvInsert st k v else st,
          s3)) := by
  obtain ⟨version, numKV, numTensor, s2, hb⟩ := ggufDecode_ok h
  obtain ⟨kv1, s1, ts, p, sT, hkv, hts, hm, ha, hsF⟩ := ggufBody_ok hb
  subst hm
  have hinv : ∀ q ∈ kv1, kvEntryOk q := kvLoop_inv (by simp) hkv
  have hinv2 : ∀ q ∈ kvInsert kv1 paramCountKey (.scalar (.u64 p)), kvEntryOk q := by
    intro q hq
    rcases mem_kvInsert hq with he | hmem
    · subst he
      exact ⟨by simp, show paramCountKey ≠ chatTemplateKey by decide⟩
    · exact hinv q hmem
  refine ⟨?_, ?_, ?_⟩
  · cases hc : kvGet (kvInsert kv1 paramCountKey (.scalar (.u64 p))) chatTemplateKey with
    | none => rfl
    | some v =>
      exfalso
      exact absurd rfl (hinv2 _ (kvGet_mem hc)).2
  · intro q hq vs
    exact (hinv2 q hq).1 vs
  · intro version' s0 st k s1' vtype s2' v s3 hstr hu hval
    unfold kvStep
    rw [hstr]
    simp only
    rw [hu]
    simp only
    rw [hval]
    simp only
    by_cases hc : vtype ≠ 9 ∧ k ≠ chatTemplateKey
    · rw [if_pos hc, if_pos hc]
    · rw [if_neg hc, if_neg hc]

/-- C2 witness: the theorem applied to a concrete well-formed stream (no
key/value entries, no tensors): the chat-template key is absent from the
resulting store. -/
theorem c2_kv_filter_witness :
    kvGet [(paramCountKey, gValue.scalar (gScalar.u64 0))] chatTemplateKey =
      none := by
  have h := c2_kv_filter ⟨c2Input, 0⟩
    ⟨2, [(paramCountKey, .scalar (.u64 0))], [], 0⟩ ⟨c2Input, 32⟩ (by decide)
  exact h.1

/-- C7: after every successful GGUF decode the store binds the synthesized
parameter-count key to the `uint64` running total of the parameter counts
of the decoded tensors in declaration order; the binding is the
unconditional map assignment performed after the tensor loop, so it holds
even when the source stream itself carried that key (overwrite). -/
theorem c7_param_count_key (s : rso) (m : modelGGUF) (sF : rso)
    (h : ggufDecode s = .ok (m, sF)) :
    m.parameters = sumParams m.tensors ∧
    kvGet m.kv paramCountKey =
      some (.scalar (.u64 (sumParams m.tensors))) := by
  obtain ⟨version, numKV, numTensor, s2, hb⟩ := ggufDecode_ok h
  obtain ⟨kv1, s1, ts, p, sT, hkv, hts, hm, ha, hsF⟩ := ggufBody_ok hb
  subst hm
  obtain ⟨new, hnew, hp⟩ := tensorLoop_ok hts
  simp only [List.nil_append] at hnew
  subst hnew
  have hps : p = sumParams ts := hp
  constructor
  · exact hps
  · show kvGet (kvInsert kv1 paramCountKey (.scalar (.u64 p))) paramCountKey =
      some (.scalar (.u64 (sumParams ts)))
    rw [kvGet_kvInsert, if_pos rfl, hps]

/-- C7 witness: the theorem applied to a concrete stream that itself binds
the parameter-count key to 999 — the synthesized value 0 (no tensors)
overwrites it. -/
theorem c7_param_count_key_witness :
    (0 : Nat) = sumParams [] ∧
    kvGet [(paramCountKey, gValue.scalar (gScalar.u64 0))] paramCountKey =
      some (.scalar (.u64 (sumParams []))) ∧
    kvGet [(paramCountKey, gValue.scalar (gScalar.u64 0))] paramCountKey ≠
      some (.scalar (.u64 999)) := by
  have h := c7_param_count_key ⟨c7Input, 0⟩
    ⟨2, [(paramCountKey, .scalar (.u64 0))], [], 0⟩ ⟨c7Input, 64⟩ (by decide)
  exact ⟨h.1, h.2, by decide⟩

theorem gglaReadEntry_shape {s : rso} {t : tensor} {s' : rso}
    (h : gglaReadEntry s = .ok (t, s')) :
    ∃ shape : List Nat, t.Shape = shape.reverse ∧
      shape.length = u32At s.data s.pos ∧
      ∀ i, i < u32At s.data s.pos →
        shape.getD i 0 = u32At s.data (s.pos + 12 + 4 * i) := by
  unfold gglaReadEntry at h
  cases h1 : readU32c s with
  | error e => rw [h1] at h; exact absurd h (by simp)
  | ok r1 =>
  obtain ⟨dims, s1⟩ := r1
  rw [h1] at h
  simp only at h
  cases h2 : readU32c s1 with
  | error e => rw [h2] at h; exact absurd h (by simp)
  | ok r2 =>
  obtain ⟨namesize, s2⟩ := r2
  rw [h2] at h
  simp only at h
  cases h3 : readU32c s2 with
  | error e => rw [h3] at h; exact absurd h (by simp)
  | ok r3 =>
  obtain ⟨kind, s3⟩ := r3
  rw [h3] at h
  simp only at h
  cases h4 : readShape32 dims s3 with
  | error e => rw [h4] at h; exact absurd h (by simp)
  | ok r4 =>
  obtain ⟨shape, s4⟩ := r4
  rw [h4] at h
  simp only at h
  cases h5 : readExact namesize s4 with
  | error e => rw [h5] at h; exact absurd h (by simp)
  | ok r5 =>
  obtain ⟨name, s5⟩ := r5
  rw [h5] at h
  simp only [Except.ok.injEq, Prod.mk.injEq] at h
  obtain ⟨ht, hs⟩ := h
  have p1 := readU32c_ok h1
  have p2 := readU32c_ok h2
  have p3 := readU32c_ok h3
  have p4 := readShape32_ok h4
  have hdims : dims = u32At s.data s.pos := p1.2.2.2
  have hs3d : s3.data = s.data := by rw [p3.1, p2.1, p1.1]
  have hs3p : s3.pos = s.pos + 12 := by
    have a1 := p1.2.1
    have a2 := p2.2.1
    have a3 := p3.2.1
    omega
  refine ⟨shape, by rw [← ht], by rw [p4.2.2.1, hdims], ?_⟩
  intro i hi
  rw [p4.2.2.2 i (by omega), hs3d, hs3p]

/-- C3: a successfully parsed GGLA tensor entry stores as its shape the
exact reverse of the wire-order dimension sequence — entry `i` of the
stored shape is the 32-bit wire dimension at index `dims - 1 - i`, widened
to a value below `2 ^ 32` — and the tensor loop appends exactly the tensors
such entries produce. -/
theorem c3_ggla_shape_reversal (s : rso) (t : tensor) (s' : rso)
    (h : gglaReadEntry s = .ok (t, s')) :
    t.Shape.length = u32At s.data s.pos ∧
    (∀ i, i < u32At s.data s.pos →
      t.Shape.getD i 0 =
        u32At s.data (s.pos + 12 + 4 * (u32At s.data s.pos - 1 - i)) ∧
      t.Shape.getD i 0 < 2 ^ 32) ∧
    (∀ s0 acc t0 s0', gglaReadEntry s0 = .ok (t0, s0') →
      gglaLoop s0 acc = gglaLoop s0' (acc ++ [t0])) := by
  obtain ⟨shape, hshape, hlen, hwire⟩ := gglaReadEntry_shape h
  refine ⟨by rw [hshape, List.length_reverse, hlen], ?_, ?_⟩
  · intro i hi
    have hilen : i < shape.reverse.length := by
      rw [List.length_reverse, hlen]; omega
    have hjlen : shape.length - 1 - i < shape.length := by
      rw [hlen]; omega
    have hrev : t.Shape.getD i 0 = shape.getD (shape.length - 1 - i) 0 := by
      rw [hshape, List.getD_eq_getElem _ _ hilen, List.getElem_reverse,
        List.getD_eq_getElem _ _ hjlen]
    rw [hrev, hwire _ (by rw [← hlen]; omega), hlen]
    constructor
    · rfl
    · unfold u32At
      exact Nat.mod_lt _ (by norm_num)
  · intro s0 acc t0 s0' h0
    rw [gglaLoop_eq s0 acc, h0]

/-- C3 witness: the theorem applied to a concrete entry with wire-order
dimensions 3 then 5 — the stored shape lists 5 first, then 3. -/
theorem c3_ggla_shape_reversal_witness :
    List.length [5, 3] = u32At c3Entry 0 ∧
    List.getD [5, 3] 0 0 = u32At c3Entry (0 + 12 + 4 * (u32At c3Entry 0 - 1 - 0)) ∧
    List.getD [5, 3] 1 0 = u32At c3Entry (0 + 12 + 4 * (u32At c3Entry 0 - 1 - 1)) := by
  have h := c3_ggla_shape_reversal ⟨c3Entry, 0⟩ ⟨[119], 0, [5, 3], 32⟩
    ⟨c3Entry, 92⟩ (by decide)
  exact ⟨h.1, (h.2.1 0 (by decide)).1, (h.2.1 1 (by decide)).1⟩

/-- C9: the GGLA tensor loop has no terminating count. For every stream
whose version field reads 1, `Decode` terminates and returns a (non-nil)
model together with an error: if the two hyperparameter reads succeed, the
model's tensors are exactly the loop's accumulated descriptors and the
error is the loop's terminating error; and the loop treats every entry-read
failure identically — end of stream at an entry boundary (`eof`) and a
failure mid-entry return the accumulated list with the terminating error in
the same way. -/
theorem c9_ggla_partial_result (s : rso) (s1 : rso)
    (hv : readU32 s = (1, s1)) :
    (∃ m e s', gglaDecode s = (some m, some (.read e), s')) ∧
    (∀ r s2 alpha s3, readU32c s1 = .ok (r, s2) → readU32c s2 = .ok (alpha, s3) →
      gglaDecode s = (some ⟨kvInsert (kvInsert ∅ rKey (.scalar (.u32 r)))
          alphaKey (.scalar (.u32 alpha)), (gglaLoop s3 []).1⟩,
        some (.read (gglaLoop s3 []).2.1), (gglaLoop s3 []).2.2)) ∧
    (∀ s0 acc e sE, gglaReadEntry s0 = .error (e, sE) →
      gglaLoop s0 acc = (acc, e, sE)) := by
  have hdec : gglaDecode s =
      (let r := gglaDecodeM s1
       (some ⟨r.1, r.2.1⟩, some (.read r.2.2.1), r.2.2.2)) := by
    unfold gglaDecode
    rw [hv]
    rfl
  refine ⟨?_, ?_, ?_⟩
  · rw [hdec]
    unfold gglaDecodeM
    cases hr : readU32c s1 with
    | error ep =>
      obtain ⟨e, se⟩ := ep
      exact ⟨_, _, _, rfl⟩
    | ok rr =>
      obtain ⟨r, s2⟩ := rr
      simp only
      cases hal : readU32c s2 with
      | error ep =>
        obtain ⟨e, se⟩ := ep
        exact ⟨_, _, _, rfl⟩
      | ok ra =>
        obtain ⟨alpha, s3⟩ := ra
        simp only
        exact ⟨_, _, _, rfl⟩
  · intro r s2 alpha s3 hr hal
    rw [hdec]
    unfold gglaDecodeM
    rw [hr]
    simp only
    rw [hal]
  · intro s0 acc e sE h0
    rw [gglaLoop_eq s0 acc, h0]

/-- C9 witness: the theorem applied to a concrete version-1 stream that
ends exactly at a tensor-entry boundary: the model carries both
hyperparameters and the empty accumulated tensor list, together with the
terminating end-of-stream error. -/
theorem c9_ggla_partial_result_witness :
    gglaDecode ⟨c9Input, 0⟩ =
      (some ⟨[(rKey, gValue.scalar (gScalar.u32 2)),
              (alphaKey, gValue.scalar (gScalar.u32 3))], []⟩,
       some (.read .eof), ⟨c9Input, 12⟩) := by
  have h := (c9_ggla_partial_result ⟨c9Input, 0⟩ ⟨c9Input, 4⟩ (by decide)).2.1
    2 ⟨c9Input, 8⟩ 3 ⟨c9Input, 12⟩ (by decide) (by decide)
  rw [h]
  decide

/-- C1 counterexample: decoding `c1Input` succeeds with the stream left at
position 96, although the position after both loops is 64 — already a
multiple of the selected alignment 32 — so the claimed pad-to-alignment
("advance by zero when already aligned", value `padToAlignedSpec 32 64 =
64`) contradicts the decoder, which advances by a full 32. Moreover for a
non-power-of-two alignment the bit-mask skip differs from the claimed
least multiple: `ggufSkip 3 4 = 4` while the smallest multiple of 3 not
below 4 is 6. -/
theorem c1_alignment_cex :
    ggufDecode ⟨c1Input, 0⟩ = .ok
      (⟨2, [(List.replicate 31 97, .scalar (.u8 7)),
            (paramCountKey, .scalar (.u64 0))], [], 0⟩, ⟨c1Input, 96⟩) ∧
    kvLoop 2 1 ⟨c1Input, 20⟩ ∅ =
      .ok ([(List.replicate 31 97, .scalar (.u8 7))], ⟨c1Input, 64⟩) ∧
    tensorLoop 2 0 ⟨c1Input, 64⟩ [] 0 = .ok ([], 0, ⟨c1Input, 64⟩) ∧
    ggufAlignment [(List.replicate 31 97, .scalar (.u8 7)),
      (paramCountKey, .scalar (.u64 0))] = 32 ∧
    64 % 32 = 0 ∧ padToAlignedSpec 32 64 = 64 ∧ (96 : Nat) ≠ 64 ∧
    ggufSkip 3 4 = 4 ∧ roundUpMul 3 4 = 6 := by decide

/-- C1 (amended): the alignment is the `uint32` value of the override key
when so bound and 32 otherwise; the decoder then advances the stream by
`a - pos % a` bytes — a full `a` when the position is already a multiple of
`a` — and then, per tensor in declaration order, by
`(size + a - 1) & (2 ^ 64 - a)`, which equals the smallest multiple of `a`
not less than the size whenever `a` is a power of two (in particular for
the default 32), but not for other alignments. -/
theorem c1_alignment_theorem (version numKV numTensor : Nat) (s : rso)
    (kv1 : KV) (s1 : rso) (ts : List tensor) (p : Nat) (s2 : rso)
    (hkv : kvLoop version numKV s ∅ = .ok (kv1, s1))
    (hts : tensorLoop version numTensor s1 [] 0 = .ok (ts, p, s2))
    (ha : ggufAlignment (kvInsert kv1 paramCountKey (.scalar (.u64 p))) ≠ 0) :
    ggufBody version numKV numTensor s = .ok
      (⟨version, kvInsert kv1 paramCountKey (.scalar (.u64 p)), ts, p⟩,
       ⟨s2.data, s2.pos +
         (ggufAlignment (kvInsert kv1 paramCountKey (.scalar (.u64 p))) -
           s2.pos % ggufAlignment (kvInsert kv1 paramCountKey (.scalar (.u64 p)))) +
         (ts.map fun t => ggufSkip
           (ggufAlignment (kvInsert kv1 paramCountKey (.scalar (.u64 p))))
           (tensorSize t)).sum⟩) ∧
    (∀ st a, kvGet st alignmentKey = some (.scalar (.u32 a)) →
      ggufAlignment st = a) ∧
    (∀ st, (∀ a, kvGet st alignmentKey ≠ some (.scalar (.u32 a))) →
      ggufAlignment st = 32) ∧
    (∀ k S, k ≤ 64 → S + 2 ^ k ≤ 2 ^ 64 →
      ggufSkip (2 ^ k) S = roundUpMul (2 ^ k) S) ∧
    (∀ a S, 0 < a → S ≤ roundUpMul a S ∧ roundUpMul a S % a = 0 ∧
      ∀ mm, S ≤ mm → mm % a = 0 → roundUpMul a S ≤ mm) := by
  refine ⟨?_, ?_, ?_, ggufSkip_pow2, roundUpMul_least⟩
  · unfold ggufBody
    rw [hkv]
    simp only
    rw [hts]
    simp only
    rw [if_neg ha, skipFold_eq]
  · intro st a hg
    unfold ggufAlignment
    rw [hg]
  · intro st hg
    unfold ggufAlignment
    split
    · rename_i a heq
      exact absurd heq (hg a)
    · rfl

/-- C1 witness: the amended layout arithmetic evaluated on an empty
stream — both loops read nothing, the alignment defaults to 32, and the
decoder advances from position 0 to 32 (a full 32, not 0). -/
theorem c1_alignment_theorem_witness :
    ggufBody 2 0 0 ⟨[], 0⟩ = .ok
      (⟨2, [(paramCountKey, gValue.scalar (gScalar.u64 0))], [], 0⟩,
       ⟨[], 32⟩) := by
  have h := (c1_alignment_theorem 2 0 0 ⟨[], 0⟩ ∅ ⟨[], 0⟩ [] 0 ⟨[], 0⟩
    rfl rfl (by decide)).1
  exact h.trans (by decide)

/-- C4 counterexample: `c4Input` declares one key/value entry of array
type whose element-type tag is the invalid array tag 9 but whose element
count is 0 — the element-type switch sits inside the element loop, so the
decode succeeds and produces a model instead of failing. -/
theorem c4_unknown_tag_cex :
    ggufDecode ⟨c4Input, 0⟩ = .ok
      (⟨2, [(paramCountKey, .scalar (.u64 0))], [], 0⟩, ⟨c4Input, 64⟩) ∧
    (c4Input.drop 33).take 4 = u32le 9 ∧
    (c4Input.drop 37).take 8 = u64le 0 := by decide

/-- C4 (amended): a key/value entry whose 32-bit type tag is above 12
makes the decode fail with the invalid-type error carrying the tag, and
an invalid array element-type tag (the array tag itself included) fails
with the invalid-array-type error carrying the tag whenever the element
count is nonzero — a zero-count array succeeds regardless of its
element-type tag; these failures propagate so that no model is produced. -/
theorem c4_unknown_tag_theorem :
    (∀ version s st k s1 t s2, readString version s = .ok (k, s1) →
      readU32 s1 = (t, s2) → 13 ≤ t →
      kvStep version s st = .error (.invalidType t)) ∧
    (∀ atype n s, 9 ≤ atype →
      readArrayLoop (readArrayElemV1 atype) (n + 1) s =
        .error (.invalidArrayType atype)) ∧
    (∀ version atype n s, atype = 9 ∨ 13 ≤ atype →
      readArrayLoop (readArrayElemV2 version atype) (n + 1) s =
        .error (.invalidArrayType atype)) ∧
    (∀ version n s st e, kvStep version s st = .error e →
      kvLoop version (n + 1) s st = .error e) ∧
    (∀ version numKV numTensor s e, kvLoop version numKV s ∅ = .error e →
      ggufBody version numKV numTensor s = .error e) := by
  refine ⟨?_, ?_, ?_, fun version n s st e h => kvLoop_err h,
    fun version nk nt s e h => ggufBody_kvErr h⟩
  · intro version s st k s1 t s2 hstr hu ht
    unfold kvStep
    rw [hstr]
    simp only
    rw [hu]
    simp only
    rw [readKVValue_invalid ht]
  · intro atype n s h9
    exact readArrayLoop_err (readArrayElemV1_invalid h9 s)
  · intro version atype n s h9
    exact readArrayLoop_err (readArrayElemV2_invalid h9 version s)

/-- C4 witness: a key/value entry with type tag 255 fails with the
invalid-type error carrying 255, and a version-1 array of element-type 9
with one element fails with the invalid-array-type error carrying 9. -/
theorem c4_unknown_tag_theorem_witness :
    kvStep 2 ⟨u64le 1 ++ [97] ++ u32le 255, 0⟩ ∅ = .error (.invalidType 255) ∧
    readArrayLoop (readArrayElemV1 9) 1 ⟨[], 0⟩ =
      .error (.invalidArrayType 9) := by
  constructor
  · exact c4_unknown_tag_theorem.1 2 ⟨u64le 1 ++ [97] ++ u32le 255, 0⟩ ∅ [97]
      ⟨u64le 1 ++ [97] ++ u32le 255, 9⟩ 255 ⟨u64le 1 ++ [97] ++ u32le 255, 13⟩
      (by decide) (by decide) (by decide)
  · exact c4_unknown_tag_theorem.2.1 9 0 ⟨[], 0⟩ (by decide)

/-- C6 counterexample: `c6Input` is 29 bytes long and ends right after the
single declared key — the stream is exhausted before the value type tag —
yet the decode succeeds: the failed 32-bit tag read is ignored and yields
tag 0, the failed `uint8` value read yields 0, and the entry is inserted
as the `uint8` value 0 instead of the read error being returned. -/
theorem c6_scalar_read_failure_cex :
    ggufDecode ⟨c6Input, 0⟩ = .ok
      (⟨2, [([97], .scalar (.u8 0)), (paramCountKey, .scalar (.u64 0))], [], 0⟩,
       ⟨c6Input, 32⟩) ∧
    c6Input.length = 29 := by decide

/-- C6 (amended): read failures during the length-prefixed byte copies of
string decoding (`io.CopyN`) are propagated verbatim and are fatal to the
decode, both in the key/value loop and in the tensor loop; but a failure
while reading a fixed-width scalar field (a type tag, a count, a shape
value, a kind code, an offset) is silently ignored — the field takes the
value zero, the reader consumes what remains, and decoding continues. -/
theorem c6_error_propagation_theorem :
    (∀ s n s1, readU32 s = (n, s1) → 1 ≤ n → s1.data.length < s1.pos + n →
      readStringV1 s = .error .copyEof) ∧
    (∀ version s n s1, version ≠ 1 → readU64 s = (n, s1) → n < 2 ^ 63 →
      s1.data.length < s1.pos + n → readString version s = .error .copyEof) ∧
    (∀ version s st e, readString version s = .error e →
      kvStep version s st = .error e) ∧
    (∀ version s e, readString version s = .error e →
      tensorStep version s = .error e) ∧
    (∀ s, s.data.length < s.pos + 4 →
      readU32 s = (0, ⟨s.data, max s.pos s.data.length⟩)) ∧
    (∀ s, s.data.length < s.pos + 8 →
      readU64 s = (0, ⟨s.data, max s.pos s.data.length⟩)) := by
  refine ⟨?_, ?_, ?_, ?_, ?_, ?_⟩
  · intro s n s1 hu hn hlen
    unfold readStringV1
    rw [hu]
    simp only
    rw [if_neg (by omega), if_neg (by omega)]
  · intro version s n s1 hv hu hbig hlen
    unfold readString
    rw [if_neg hv, hu]
    simp only
    rw [if_neg (by omega), if_neg (by omega)]
  · intro version s st e h
    unfold kvStep
    rw [h]
  · intro version s e h
    unfold tensorStep
    rw [h]
  · intro s hlen
    unfold readU32 readLax
    rw [if_neg (by omega)]
    rfl
  · intro s hlen
    unfold readU64 readLax
    rw [if_neg (by omega)]
    rfl

/-- C6 witness: a 32-bit read on a two-byte stream is ignored and yields
zero; a version-1 string whose declared length 5 exceeds the stream is the
propagated copy failure; and that failure aborts the key/value step. -/
theorem c6_error_propagation_theorem_witness :
    readU32 ⟨[1, 2], 0⟩ = (0, ⟨[1, 2], 2⟩) ∧
    readStringV1 ⟨u32le 5, 0⟩ = .error .copyEof ∧
    kvStep 1 ⟨u32le 5, 0⟩ ∅ = .error .copyEof := by
  refine ⟨?_, ?_, ?_⟩
  · have h := c6_error_propagation_theorem.2.2.2.2.1 ⟨[1, 2], 0⟩ (by decide)
    exact h.trans (by decide)
  · exact c6_error_propagation_theorem.1 ⟨u32le 5, 0⟩ 5 ⟨u32le 5, 4⟩
      (by decide) (by decide) (by decide)
  · exact c6_error_propagation_theorem.2.2.1 1 ⟨u32le 5, 0⟩ ∅ .copyEof
      (by decide)
